import Mathlib

/-!
A verification development for cachebro's core: the content-addressed version
store, the per-session staleness algorithm, the savings accounting, and the
read orchestration implemented in `CacheStore` (store.ts).

The durable SQLite tables are embedded as association lists inside a `Store`
structure; every SQL statement of the source is translated to an explicit
list operation with the same semantics.  The external file system is modelled
by passing the file's current content to `readFile` as an `Option String`
(`none` = the file is missing, in which case `statSync` throws before any
database access).  The SHA-256 content hash is an external primitive and is
passed as an explicit function parameter `contentHash : String → String`; all
theorems hold for every hash function.  Time (`Date.now()`) is passed as a
`Nat` parameter `now`.
-/

namespace Cachebro

/-- Source `estimateTokens` (store.ts): `Math.ceil(text.length * 0.75)`.
`(3 * n + 3) / 4` in natural division is exactly `⌈3n/4⌉`. -/
def estimateTokens (text : String) : Nat :=
  (3 * text.length + 3) / 4

/-- Fields obtained by splitting a character list at every newline character,
the semantics of JavaScript `text.split("\n")` (an empty text gives one empty
field; a trailing newline gives a trailing empty field). -/
def splitNL : List Char → List (List Char)
  | [] => [[]]
  | c :: cs =>
    if c = '\n' then [] :: splitNL cs
    else
      match splitNL cs with
      | [] => [[c]]
      | l :: ls => (c :: l) :: ls

/-- `text.split("\n")` as a list of strings. -/
def splitLines (s : String) : List String :=
  (splitNL s.data).map (fun l => String.mk l)

/-- Source: `currentContent.split("\n").length` — the number of fields of the
split, which is one more than the number of newline characters. -/
def lineCount (s : String) : Nat :=
  (splitLines s).length

/-- Row of the `file_versions` table: primary key `(path, hash)`. -/
structure FVRow where
  path : String
  hash : String
  content : String
  lines : Nat
  created_at : Nat
deriving DecidableEq, Repr

/-- Row of the `session_reads` table: primary key `(session_id, path)`. -/
structure SRRow where
  session_id : String
  path : String
  hash : String
  read_at : Nat
deriving DecidableEq, Repr

/-- The four durable tables.  The `stats` table only ever holds the single row
`('tokens_saved', v)` and `session_stats` only ever uses the key
`'tokens_saved'`, so these two tables are embedded as a scalar and as a
`session_id → value` association list. -/
structure Store where
  file_versions : List FVRow
  session_reads : List SRRow
  tokens_saved : Nat
  session_stats : List (String × Nat)
deriving DecidableEq, Repr

/-- A fresh database right after the schema ran: empty tables and the
`INSERT OR IGNORE INTO stats` seed row with value 0. -/
def Store.init : Store :=
  { file_versions := [], session_reads := [], tokens_saved := 0, session_stats := [] }

/-- `SELECT ... FROM file_versions WHERE path = ? AND hash = ?`. -/
def lookupFV : List FVRow → String → String → Option FVRow
  | [], _, _ => none
  | r :: rs, p, h => if r.path = p ∧ r.hash = h then some r else lookupFV rs p h

/-- `SELECT ... FROM session_reads WHERE session_id = ? AND path = ?`. -/
def lookupSR : List SRRow → String → String → Option SRRow
  | [], _, _ => none
  | r :: rs, sid, p => if r.session_id = sid ∧ r.path = p then some r else lookupSR rs sid p

/-- `UPDATE session_reads SET read_at = ? WHERE session_id = ? AND path = ?`. -/
def updateSRReadAt : List SRRow → String → String → Nat → List SRRow
  | [], _, _, _ => []
  | r :: rs, sid, p, t =>
    if r.session_id = sid ∧ r.path = p then
      { r with read_at := t } :: updateSRReadAt rs sid p t
    else
      r :: updateSRReadAt rs sid p t

/-- `UPDATE session_reads SET hash = ?, read_at = ? WHERE session_id = ? AND path = ?`. -/
def updateSRHash : List SRRow → String → String → String → Nat → List SRRow
  | [], _, _, _, _ => []
  | r :: rs, sid, p, h, t =>
    if r.session_id = sid ∧ r.path = p then
      { r with hash := h, read_at := t } :: updateSRHash rs sid p h t
    else
      r :: updateSRHash rs sid p h t

/-- Rows surviving `INSERT OR REPLACE`'s conflict deletion for key `(sid, p)`. -/
def removeSR : List SRRow → String → String → List SRRow
  | [], _, _ => []
  | r :: rs, sid, p =>
    if r.session_id = sid ∧ r.path = p then removeSR rs sid p
    else r :: removeSR rs sid p

/-- `INSERT OR REPLACE INTO session_reads (session_id, path, hash, read_at) VALUES (?,?,?,?)`. -/
def insertOrReplaceSR (l : List SRRow) (sid p h : String) (t : Nat) : List SRRow :=
  removeSR l sid p ++ [{ session_id := sid, path := p, hash := h, read_at := t }]

/-- `DELETE FROM file_versions WHERE path = ?`. -/
def deleteFVPath : List FVRow → String → List FVRow
  | [], _ => []
  | r :: rs, p => if r.path = p then deleteFVPath rs p else r :: deleteFVPath rs p

/-- `DELETE FROM session_reads WHERE path = ?`. -/
def deleteSRPath : List SRRow → String → List SRRow
  | [], _ => []
  | r :: rs, p => if r.path = p then deleteSRPath rs p else r :: deleteSRPath rs p

/-- `SELECT value FROM session_stats WHERE session_id = ? AND key = 'tokens_saved'`. -/
def lookupSS : List (String × Nat) → String → Option Nat
  | [], _ => none
  | (k, v) :: rest, sid => if k = sid then some v else lookupSS rest sid

/-- `INSERT INTO session_stats ... ON CONFLICT(session_id, key) DO UPDATE SET
value = value + ?`: add to the existing row, or insert a fresh one. -/
def upsertAddSS : List (String × Nat) → String → Nat → List (String × Nat)
  | [], sid, t => [(sid, t)]
  | (k, v) :: rest, sid, t =>
    if k = sid then (k, v + t) :: rest
    else (k, v) :: upsertAddSS rest sid t

/-- Source `CacheStore.addTokensSaved`: one atomic increment of the global
`stats` row and one upsert-increment of this session's `session_stats` row. -/
def addTokensSaved (st : Store) (sessionId : String) (tokens : Nat) : Store :=
  { st with
    tokens_saved := st.tokens_saved + tokens
    session_stats := upsertAddSS st.session_stats sessionId tokens }

/-- `INSERT OR IGNORE INTO file_versions (path, hash, content, lines, created_at)`:
inserts a row only when the key `(path, hash)` is absent (spec §4.3 `putVersion`). -/
def putVersion (st : Store) (path hash content : String) (lines created_at : Nat) : Store :=
  match lookupFV st.file_versions path hash with
  | some _ => st
  | none =>
      { st with
        file_versions :=
          st.file_versions ++
            [{ path := path, hash := hash, content := content,
               lines := lines, created_at := created_at }] }

/-! ## The diff engine -/

/-- Modelled from the spec: the DiffEngine source (`differ.ts`, imported by
store.ts as `computeDiff`) is not among the provided sources, so it is built
from spec §4.2: split both inputs into lines, compute a minimal line-level
edit script (insertions / deletions / equal runs), render a unified-diff
document labeled with the given path; `hasChanges` is false iff the script
has no insertions or deletions; `linesChanged` counts inserted-or-deleted
lines.  `DiffOp` is one step of the edit script. -/
inductive DiffOp where
  | keep (line : String)
  | del (line : String)
  | ins (line : String)
deriving DecidableEq, Repr

/-- Modelled from the spec: length of the longest common subsequence of the
two line lists, used to pick the minimal edit script.  The `fuel` argument
(any bound of at least `xs.length + ys.length`) keeps the recursion
structural; `lcsLen` below always supplies enough. -/
def lcsLenAux : Nat → List String → List String → Nat
  | 0, _, _ => 0
  | _ + 1, [], _ => 0
  | _ + 1, _ :: _, [] => 0
  | fuel + 1, a :: as, b :: bs =>
    if a = b then 1 + lcsLenAux fuel as bs
    else max (lcsLenAux fuel (a :: as) bs) (lcsLenAux fuel as (b :: bs))

/-- Modelled from the spec: longest-common-subsequence length of two line lists. -/
def lcsLen (xs ys : List String) : Nat :=
  lcsLenAux (xs.length + ys.length) xs ys

/-- Modelled from the spec: a minimal line-level edit script between the two
line lists (empty old / new text degenerates to all-insert / all-delete),
fuel-structured like `lcsLenAux`. -/
def editScriptAux : Nat → List String → List String → List DiffOp
  | 0, _, _ => []
  | _ + 1, [], [] => []
  | fuel + 1, [], b :: bs => DiffOp.ins b :: editScriptAux fuel [] bs
  | fuel + 1, a :: as, [] => DiffOp.del a :: editScriptAux fuel as []
  | fuel + 1, a :: as, b :: bs =>
    if a = b then DiffOp.keep a :: editScriptAux fuel as bs
    else if lcsLen as (b :: bs) ≥ lcsLen (a :: as) bs then
      DiffOp.del a :: editScriptAux fuel as (b :: bs)
    else
      DiffOp.ins b :: editScriptAux fuel (a :: as) bs

/-- Modelled from the spec: the minimal edit script between two line lists. -/
def editScript (xs ys : List String) : List DiffOp :=
  editScriptAux (xs.length + ys.length) xs ys

/-- Modelled from the spec: whether an edit-script step is an insertion or a
deletion (not an equal/context line). -/
def isChange : DiffOp → Bool
  | DiffOp.keep _ => false
  | DiffOp.del _ => true
  | DiffOp.ins _ => true

/-- Modelled from the spec: render one edit-script step as a unified-diff line. -/
def renderOp : DiffOp → String
  | DiffOp.keep l => " " ++ l
  | DiffOp.del l => "-" ++ l
  | DiffOp.ins l => "+" ++ l

/-- Modelled from the spec: a unified-diff document — file labels, a hunk
header with the old/new line ranges, then the rendered script lines. -/
def renderDiff (label : String) (oldLen newLen : Nat) (script : List DiffOp) : String :=
  s!"--- {label}\n+++ {label}\n@@ -1,{oldLen} +1,{newLen} @@\n" ++
    String.intercalate "\n" (script.map renderOp)

/-- Result of the diff engine; field names follow the uses in store.ts
(`diffResult.diff`, `.hasChanges`, `.linesChanged`). -/
structure DiffResult where
  diff : String
  hasChanges : Bool
  linesChanged : Nat
deriving DecidableEq, Repr

/-- Modelled from the spec: `computeDiff(oldText, newText, label)` of §4.2. -/
def computeDiff (oldText newText label : String) : DiffResult :=
  let oldLines := splitLines oldText
  let newLines := splitLines newText
  let script := editScript oldLines newLines
  { diff := renderDiff label oldLines.length newLines.length script
    hasChanges := script.any isChange
    linesChanged := script.countP isChange }

/-! ## The read orchestrator -/

/-- The `FileReadResult` interface of types.ts; optional fields are `Option`. -/
structure FileReadResult where
  cached : Bool
  content : String
  diff : Option String
  linesChanged : Option Nat
  totalLines : Option Nat
  hash : String
deriving DecidableEq, Repr

/-- The `CacheStats` interface of types.ts. -/
structure CacheStats where
  filesTracked : Nat
  tokensSaved : Nat
  sessionTokensSaved : Nat
deriving DecidableEq, Repr

/-- Error kinds `readFile` can propagate: `statSync` throws when the path does
not exist (ENOENT), before any database access. -/
inductive CacheError where
  | notFound
deriving DecidableEq, Repr

deriving instance DecidableEq for Except

/-- The summary string returned for an unchanged read:
`[cachebro: unchanged, N lines, S tokens saved]`. -/
def unchangedSummary (lines tokens : Nat) : String :=
  s!"[cachebro: unchanged, {lines} lines, {tokens} tokens saved]"

/-- Source `CacheStore.readFile` (store.ts lines 70–172), translated branch by
branch.  `fileContent` is what the file system holds at `filePath` (`none` =
missing, `statSync` throws and the store is untouched).  `Nat` subtraction in
the changed branch is exactly the source's `Math.max(0, full - diff)`. -/
def readFile (contentHash : String → String) (st : Store) (sessionId filePath : String)
    (fileContent : Option String) (now : Nat) :
    Except CacheError FileReadResult × Store :=
  match fileContent with
  | none => (Except.error CacheError.notFound, st)
  | some currentContent =>
    let currentHash := contentHash currentContent
    let currentLines := lineCount currentContent
    match lookupSR st.session_reads sessionId filePath with
    | some lastRead =>
      if lastRead.hash = currentHash then
        -- Same content this session already saw
        let tokensSaved := estimateTokens currentContent
        let st1 := addTokensSaved st sessionId tokensSaved
        let st2 := { st1 with
          session_reads := updateSRReadAt st1.session_reads sessionId filePath now }
        (Except.ok
          { cached := true
            content := unchangedSummary currentLines tokensSaved
            diff := none
            linesChanged := some 0
            totalLines := some currentLines
            hash := currentHash }, st2)
      else
        -- File changed since this session last read it
        let oldVersion := lookupFV st.file_versions filePath lastRead.hash
        let st1 := putVersion st filePath currentHash currentContent currentLines now
        let st2 := { st1 with
          session_reads := updateSRHash st1.session_reads sessionId filePath currentHash now }
        match oldVersion with
        | some oldRow =>
          let diffResult := computeDiff oldRow.content currentContent filePath
          if diffResult.hasChanges then
            let saved := estimateTokens currentContent - estimateTokens diffResult.diff
            let st3 := addTokensSaved st2 sessionId saved
            (Except.ok
              { cached := true
                content := diffResult.diff
                diff := some diffResult.diff
                linesChanged := some diffResult.linesChanged
                totalLines := some currentLines
                hash := currentHash }, st3)
          else
            (Except.ok
              { cached := false
                content := currentContent
                diff := none
                linesChanged := none
                totalLines := some currentLines
                hash := currentHash }, st2)
        | none =>
          -- Old version not found in cache — return full content
          (Except.ok
            { cached := false
              content := currentContent
              diff := none
              linesChanged := none
              totalLines := some currentLines
              hash := currentHash }, st2)
    | none =>
      -- First read in this session
      let st1 := putVersion st filePath currentHash currentContent currentLines now
      let st2 := { st1 with
        session_reads := insertOrReplaceSR st1.session_reads sessionId filePath currentHash now }
      (Except.ok
        { cached := false
          content := currentContent
          diff := none
          linesChanged := none
          totalLines := some currentLines
          hash := currentHash }, st2)

/-- Source `CacheStore.onFileDeleted`: purge both tables for the path. -/
def onFileDeleted (st : Store) (path : String) : Store :=
  { st with
    file_versions := deleteFVPath st.file_versions path
    session_reads := deleteSRPath st.session_reads path }

/-- Per-session saved-token counter as `getStats` reads it (0 when no row). -/
def sessionSaved (st : Store) (sessionId : String) : Nat :=
  (lookupSS st.session_stats sessionId).getD 0

/-- Source `CacheStore.getStats`. -/
def getStats (st : Store) (sessionId : String) : CacheStats :=
  { filesTracked := ((st.file_versions.map (fun r => r.path)).eraseDups).length
    tokensSaved := st.tokens_saved
    sessionTokensSaved := sessionSaved st sessionId }

/-- Source `CacheStore.clear`: delete all rows and zero the stats row. -/
def clear (_st : Store) : Store :=
  { file_versions := [], session_reads := [], tokens_saved := 0, session_stats := [] }

/-- One public operation on the store, for reachability statements.
`read` carries what the file system holds at call time. -/
inductive Op where
  | read (sessionId filePath : String) (fileContent : Option String) (now : Nat)
  | fileDeleted (path : String)
  | statsQuery (sessionId : String)
  | clearAll
deriving DecidableEq, Repr

/-- Effect of one operation on the store (`getStats` is read-only). -/
def applyOp (contentHash : String → String) (st : Store) : Op → Store
  | Op.read sid p fc now => (readFile contentHash st sid p fc now).2
  | Op.fileDeleted p => onFileDeleted st p
  | Op.statsQuery _ => st
  | Op.clearAll => clear st

/-- A whole history of operations applied to a store. -/
def applyOps (contentHash : String → String) (st : Store) (ops : List Op) : Store :=
  ops.foldl (applyOp contentHash) st

/-- Number of `file_versions` rows with key `(p, h)`. -/
def countFV : List FVRow → String → String → Nat
  | [], _, _ => 0
  | r :: rs, p, h => (if r.path = p ∧ r.hash = h then 1 else 0) + countFV rs p h

/-- Every session-pointer row refers to an existing `file_versions` row with
key `(path, hash)`. -/
def pointersValid (st : Store) : Prop :=
  ∀ r ∈ st.session_reads, ∃ v, lookupFV st.file_versions r.path r.hash = some v

/-! ## Helper lemmas about the table operations -/

theorem lookupSR_keys {l : List SRRow} {sid p : String} {r : SRRow}
    (h : lookupSR l sid p = some r) : r.session_id = sid ∧ r.path = p := by
  induction l with
  | nil => simp [lookupSR] at h
  | cons a rest ih =>
    by_cases hc : a.session_id = sid ∧ a.path = p
    · simp [lookupSR, hc] at h
      exact h ▸ hc
    · simp [lookupSR, hc] at h
      exact ih h

theorem lookupSR_updateSRReadAt_self (l : List SRRow) (sid p : String) (t : Nat) :
    lookupSR (updateSRReadAt l sid p t) sid p =
      (lookupSR l sid p).map (fun r => { r with read_at := t }) := by
  induction l with
  | nil => simp [lookupSR, updateSRReadAt]
  | cons a rest ih =>
    by_cases hc : a.session_id = sid ∧ a.path = p
    · simp [lookupSR, updateSRReadAt, hc]
    · simp [lookupSR, updateSRReadAt, hc, ih]

theorem lookupSR_updateSRHash_self (l : List SRRow) (sid p h : String) (t : Nat) :
    lookupSR (updateSRHash l sid p h t) sid p =
      (lookupSR l sid p).map (fun r => { r with hash := h, read_at := t }) := by
  induction l with
  | nil => simp [lookupSR, updateSRHash]
  | cons a rest ih =>
    by_cases hc : a.session_id = sid ∧ a.path = p
    · simp [lookupSR, updateSRHash, hc]
    · simp [lookupSR, updateSRHash, hc, ih]

theorem lookupSR_removeSR_self (l : List SRRow) (sid p : String) :
    lookupSR (removeSR l sid p) sid p = none := by
  induction l with
  | nil => simp [lookupSR, removeSR]
  | cons a rest ih =>
    by_cases hc : a.session_id = sid ∧ a.path = p
    · simp [removeSR, hc, ih]
    · simp [lookupSR, removeSR, hc, ih]

theorem lookupSR_append (l1 l2 : List SRRow) (sid p : String) :
    lookupSR (l1 ++ l2) sid p =
      match lookupSR l1 sid p with
      | some r => some r
      | none => lookupSR l2 sid p := by
  induction l1 with
  | nil => simp [lookupSR]
  | cons a rest ih =>
    by_cases hc : a.session_id = sid ∧ a.path = p
    · simp [lookupSR, hc]
    · simp [lookupSR, hc, ih]

theorem lookupSR_insertOrReplaceSR_self (l : List SRRow) (sid p h : String) (t : Nat) :
    lookupSR (insertOrReplaceSR l sid p h t) sid p =
      some { session_id := sid, path := p, hash := h, read_at := t } := by
  simp [insertOrReplaceSR, lookupSR_append, lookupSR_removeSR_self, lookupSR]

theorem putVersion_session_reads (st : Store) (p h c : String) (lc t : Nat) :
    (putVersion st p h c lc t).session_reads = st.session_reads := by
  simp only [putVersion]
  split <;> rfl

theorem putVersion_tokens_saved (st : Store) (p h c : String) (lc t : Nat) :
    (putVersion st p h c lc t).tokens_saved = st.tokens_saved := by
  simp only [putVersion]
  split <;> rfl

theorem putVersion_session_stats (st : Store) (p h c : String) (lc t : Nat) :
    (putVersion st p h c lc t).session_stats = st.session_stats := by
  simp only [putVersion]
  split <;> rfl

theorem addTokensSaved_session_reads (st : Store) (sid : String) (t : Nat) :
    (addTokensSaved st sid t).session_reads = st.session_reads := rfl

theorem addTokensSaved_file_versions (st : Store) (sid : String) (t : Nat) :
    (addTokensSaved st sid t).file_versions = st.file_versions := rfl

theorem lookupSS_upsertAddSS_self (l : List (String × Nat)) (sid : String) (t : Nat) :
    lookupSS (upsertAddSS l sid t) sid = some ((lookupSS l sid).getD 0 + t) := by
  induction l with
  | nil => simp [lookupSS, upsertAddSS]
  | cons a rest ih =>
    obtain ⟨k, v⟩ := a
    by_cases hc : k = sid
    · simp [lookupSS, upsertAddSS, hc]
    · simp [lookupSS, upsertAddSS, hc, ih]

theorem lookupSS_upsertAddSS_other (l : List (String × Nat)) (sid sid' : String) (t : Nat)
    (h : sid' ≠ sid) : lookupSS (upsertAddSS l sid t) sid' = lookupSS l sid' := by
  induction l with
  | nil => simp [lookupSS, upsertAddSS, Ne.symm h]
  | cons a rest ih =>
    obtain ⟨k, v⟩ := a
    by_cases hc : k = sid
    · subst hc
      simp [lookupSS, upsertAddSS, Ne.symm h]
    · simp [lookupSS, upsertAddSS, hc, ih]

theorem sessionSaved_addTokensSaved_self (st : Store) (sid : String) (t : Nat) :
    sessionSaved (addTokensSaved st sid t) sid = sessionSaved st sid + t := by
  simp [sessionSaved, addTokensSaved, lookupSS_upsertAddSS_self]

theorem sessionSaved_upsert_mono (l : List (String × Nat)) (sid sid' : String) (t : Nat) :
    (lookupSS l sid').getD 0 ≤ (lookupSS (upsertAddSS l sid t) sid').getD 0 := by
  by_cases h : sid' = sid
  · subst h
    simp [lookupSS_upsertAddSS_self]
  · simp [lookupSS_upsertAddSS_other _ _ _ _ h]

theorem putVersion_noop {st : Store} {p h : String} {v : FVRow}
    (hv : lookupFV st.file_versions p h = some v) (c : String) (l t : Nat) :
    putVersion st p h c l t = st := by
  simp [putVersion, hv]

theorem sessionSaved_addTokensSaved_mono (st : Store) (sid sid' : String) (t : Nat) :
    sessionSaved st sid' ≤ sessionSaved (addTokensSaved st sid t) sid' := by
  by_cases h : sid' = sid
  · subst h
    simp [sessionSaved_addTokensSaved_self]
  · simp [sessionSaved, addTokensSaved, lookupSS_upsertAddSS_other _ _ _ _ h]

theorem readFile_pointer (ch : String → String) (st : Store) (sid p C : String) (now : Nat) :
    lookupSR ((readFile ch st sid p (some C) now).2).session_reads sid p =
      some { session_id := sid, path := p, hash := ch C, read_at := now } := by
  cases hlook : lookupSR st.session_reads sid p with
  | none =>
    simp [readFile, hlook, putVersion_session_reads, lookupSR_insertOrReplaceSR_self]
  | some lastRead =>
    obtain ⟨hsid, hp⟩ := lookupSR_keys hlook
    by_cases hh : lastRead.hash = ch C
    · simp [readFile, hlook, hh, addTokensSaved_session_reads,
        lookupSR_updateSRReadAt_self, hsid, hp]
    · cases hfv : lookupFV st.file_versions p lastRead.hash with
      | none =>
        simp [readFile, hlook, hh, hfv, putVersion_session_reads,
          lookupSR_updateSRHash_self, hsid, hp]
      | some oldRow =>
        by_cases hchg : (computeDiff oldRow.content C p).hasChanges
        · simp [readFile, hlook, hh, hfv, hchg, addTokensSaved_session_reads,
            putVersion_session_reads, lookupSR_updateSRHash_self, hsid, hp]
        · simp [readFile, hlook, hh, hfv, hchg, putVersion_session_reads,
            lookupSR_updateSRHash_self, hsid, hp]

theorem lookupFV_append (l1 l2 : List FVRow) (p h : String) :
    lookupFV (l1 ++ l2) p h =
      match lookupFV l1 p h with
      | some r => some r
      | none => lookupFV l2 p h := by
  induction l1 with
  | nil => simp [lookupFV]
  | cons a rest ih =>
    by_cases hc : a.path = p ∧ a.hash = h
    · simp [lookupFV, hc]
    · simp [lookupFV, hc, ih]

theorem countFV_append (l1 l2 : List FVRow) (p h : String) :
    countFV (l1 ++ l2) p h = countFV l1 p h + countFV l2 p h := by
  induction l1 with
  | nil => simp [countFV]
  | cons a rest ih =>
    show (if a.path = p ∧ a.hash = h then 1 else 0) + countFV (rest ++ l2) p h =
      ((if a.path = p ∧ a.hash = h then 1 else 0) + countFV rest p h) + countFV l2 p h
    rw [ih]
    omega

theorem countFV_zero_of_lookup_none {l : List FVRow} {p h : String}
    (hl : lookupFV l p h = none) : countFV l p h = 0 := by
  induction l with
  | nil => simp [countFV]
  | cons a rest ih =>
    by_cases hc : a.path = p ∧ a.hash = h
    · simp [lookupFV, hc] at hl
    · simp [lookupFV, hc] at hl
      simp [countFV, hc, ih hl]

theorem lookupFV_putVersion_preserve {st : Store} {p' h' : String} {v : FVRow}
    (p h c : String) (lc t : Nat)
    (hv : lookupFV st.file_versions p' h' = some v) :
    lookupFV (putVersion st p h c lc t).file_versions p' h' = some v := by
  simp only [putVersion]
  split
  · exact hv
  · simp [lookupFV_append, hv]

theorem lookupFV_keys {l : List FVRow} {p h : String} {r : FVRow}
    (hl : lookupFV l p h = some r) : r.path = p ∧ r.hash = h := by
  induction l with
  | nil => simp [lookupFV] at hl
  | cons a rest ih =>
    by_cases hc : a.path = p ∧ a.hash = h
    · simp only [lookupFV, if_pos hc, Option.some.injEq] at hl
      exact hl ▸ hc
    · simp only [lookupFV, if_neg hc] at hl
      exact ih hl

theorem lookupFV_putVersion_self (st : Store) (p h c : String) (lc t : Nat) :
    ∃ v, lookupFV (putVersion st p h c lc t).file_versions p h = some v ∧ v.path = p := by
  simp only [putVersion]
  cases hl : lookupFV st.file_versions p h with
  | some v => exact ⟨v, hl, (lookupFV_keys hl).1⟩
  | none =>
    refine ⟨{ path := p, hash := h, content := c, lines := lc, created_at := t }, ?_, rfl⟩
    simp [lookupFV_append, hl, lookupFV]

theorem lookupFV_deleteFVPath {l : List FVRow} {p p' h : String} (hne : p' ≠ p) :
    lookupFV (deleteFVPath l p) p' h = lookupFV l p' h := by
  induction l with
  | nil => simp [deleteFVPath]
  | cons a rest ih =>
    by_cases hc : a.path = p
    · have hcond : ¬(a.path = p' ∧ a.hash = h) := fun hcontra =>
        hne (hcontra.1.symm.trans hc)
      have h1 : deleteFVPath (a :: rest) p = deleteFVPath rest p := by
        simp [deleteFVPath, hc]
      have h2 : lookupFV (a :: rest) p' h = lookupFV rest p' h := by
        simp only [lookupFV, if_neg hcond]
      rw [h1, ih, h2]
    · have h1 : deleteFVPath (a :: rest) p = a :: deleteFVPath rest p := by
        simp [deleteFVPath, hc]
      rw [h1]
      show (if a.path = p' ∧ a.hash = h then some a else lookupFV (deleteFVPath rest p) p' h) =
        lookupFV (a :: rest) p' h
      rw [ih]
      rfl

theorem mem_updateSRReadAt {l : List SRRow} {sid p : String} {t : Nat} {r' : SRRow}
    (hm : r' ∈ updateSRReadAt l sid p t) :
    ∃ r ∈ l, r'.path = r.path ∧ r'.hash = r.hash := by
  induction l with
  | nil => simp [updateSRReadAt] at hm
  | cons a rest ih =>
    by_cases hc : a.session_id = sid ∧ a.path = p
    · rw [show updateSRReadAt (a :: rest) sid p t =
          { a with read_at := t } :: updateSRReadAt rest sid p t from by
        simp only [updateSRReadAt, if_pos hc]] at hm
      rcases List.mem_cons.mp hm with h | h
      · exact ⟨a, List.mem_cons_self _ _, by simp [h]⟩
      · obtain ⟨r, hr, hk⟩ := ih h
        exact ⟨r, List.mem_cons_of_mem _ hr, hk⟩
    · rw [show updateSRReadAt (a :: rest) sid p t = a :: updateSRReadAt rest sid p t from by
        simp only [updateSRReadAt, if_neg hc]] at hm
      rcases List.mem_cons.mp hm with h | h
      · exact ⟨a, List.mem_cons_self _ _, by simp [h]⟩
      · obtain ⟨r, hr, hk⟩ := ih h
        exact ⟨r, List.mem_cons_of_mem _ hr, hk⟩

theorem mem_updateSRHash {l : List SRRow} {sid p h : String} {t : Nat} {r' : SRRow}
    (hm : r' ∈ updateSRHash l sid p h t) :
    (r'.path = p ∧ r'.hash = h) ∨ r' ∈ l := by
  induction l with
  | nil => simp [updateSRHash] at hm
  | cons a rest ih =>
    by_cases hc : a.session_id = sid ∧ a.path = p
    · rw [show updateSRHash (a :: rest) sid p h t =
          { a with hash := h, read_at := t } :: updateSRHash rest sid p h t from by
        simp only [updateSRHash, if_pos hc]] at hm
      rcases List.mem_cons.mp hm with heq | hmem
      · exact Or.inl (by simp [heq, hc.2])
      · rcases ih hmem with hk | hmem'
        · exact Or.inl hk
        · exact Or.inr (List.mem_cons_of_mem _ hmem')
    · rw [show updateSRHash (a :: rest) sid p h t = a :: updateSRHash rest sid p h t from by
        simp only [updateSRHash, if_neg hc]] at hm
      rcases List.mem_cons.mp hm with heq | hmem
      · exact Or.inr (heq ▸ List.mem_cons_self _ _)
      · rcases ih hmem with hk | hmem'
        · exact Or.inl hk
        · exact Or.inr (List.mem_cons_of_mem _ hmem')

theorem mem_removeSR {l : List SRRow} {sid p : String} {r : SRRow}
    (hm : r ∈ removeSR l sid p) : r ∈ l := by
  induction l with
  | nil => simp [removeSR] at hm
  | cons a rest ih =>
    by_cases hc : a.session_id = sid ∧ a.path = p
    · rw [show removeSR (a :: rest) sid p = removeSR rest sid p from by
        simp only [removeSR, if_pos hc]] at hm
      exact List.mem_cons_of_mem _ (ih hm)
    · rw [show removeSR (a :: rest) sid p = a :: removeSR rest sid p from by
        simp only [removeSR, if_neg hc]] at hm
      rcases List.mem_cons.mp hm with heq | hmem
      · exact heq ▸ List.mem_cons_self _ _
      · exact List.mem_cons_of_mem _ (ih hmem)

theorem mem_insertOrReplaceSR {l : List SRRow} {sid p h : String} {t : Nat} {r' : SRRow}
    (hm : r' ∈ insertOrReplaceSR l sid p h t) :
    r' = { session_id := sid, path := p, hash := h, read_at := t } ∨ r' ∈ l := by
  simp only [insertOrReplaceSR, List.mem_append, List.mem_singleton] at hm
  rcases hm with hmem | heq
  · exact Or.inr (mem_removeSR hmem)
  · exact Or.inl heq

theorem mem_deleteSRPath {l : List SRRow} {p : String} {r : SRRow}
    (hm : r ∈ deleteSRPath l p) : r ∈ l ∧ r.path ≠ p := by
  induction l with
  | nil => simp [deleteSRPath] at hm
  | cons a rest ih =>
    by_cases hc : a.path = p
    · rw [show deleteSRPath (a :: rest) p = deleteSRPath rest p from by
        simp only [deleteSRPath, if_pos hc]] at hm
      exact ⟨List.mem_cons_of_mem _ (ih hm).1, (ih hm).2⟩
    · rw [show deleteSRPath (a :: rest) p = a :: deleteSRPath rest p from by
        simp only [deleteSRPath, if_neg hc]] at hm
      rcases List.mem_cons.mp hm with heq | hmem
      · exact ⟨heq ▸ List.mem_cons_self _ _, heq ▸ hc⟩
      · exact ⟨List.mem_cons_of_mem _ (ih hmem).1, (ih hmem).2⟩

/-- Exact evaluation of the unchanged branch, given a pointer whose hash
matches the current content. -/
theorem readFile_unchanged_of_pointer (ch : String → String) (st : Store)
    (sid p C : String) (now : Nat) (r0 : SRRow)
    (h1 : lookupSR st.session_reads sid p = some r0) (h2 : r0.hash = ch C) :
    readFile ch st sid p (some C) now =
      (Except.ok
        { cached := true
          content := unchangedSummary (lineCount C) (estimateTokens C)
          diff := none
          linesChanged := some 0
          totalLines := some (lineCount C)
          hash := ch C },
       { file_versions := st.file_versions
         session_reads := updateSRReadAt st.session_reads sid p now
         tokens_saved := st.tokens_saved + estimateTokens C
         session_stats := upsertAddSS st.session_stats sid (estimateTokens C) }) := by
  simp [readFile, h1, h2, addTokensSaved]

/-- Shape of the store after a successful read: either only the pointer
timestamp was refreshed (unchanged branch), or the current version was
inserted and the pointer moved to the current hash. -/
theorem readFile_state_fields (ch : String → String) (st : Store) (sid p C : String)
    (now : Nat) :
    ((readFile ch st sid p (some C) now).2.file_versions = st.file_versions
      ∧ (readFile ch st sid p (some C) now).2.session_reads
          = updateSRReadAt st.session_reads sid p now)
    ∨ ((readFile ch st sid p (some C) now).2.file_versions
          = (putVersion st p (ch C) C (lineCount C) now).file_versions
        ∧ ((readFile ch st sid p (some C) now).2.session_reads
              = updateSRHash st.session_reads sid p (ch C) now
            ∨ (readFile ch st sid p (some C) now).2.session_reads
              = insertOrReplaceSR st.session_reads sid p (ch C) now)) := by
  cases hlook : lookupSR st.session_reads sid p with
  | none =>
    right
    constructor
    · simp [readFile, hlook]
    · right
      simp [readFile, hlook, putVersion_session_reads]
  | some lastRead =>
    by_cases hh : lastRead.hash = ch C
    · left
      constructor
      · simp [readFile, hlook, hh, addTokensSaved]
      · simp [readFile, hlook, hh, addTokensSaved]
    · right
      cases hfv : lookupFV st.file_versions p lastRead.hash with
      | none =>
        constructor
        · simp [readFile, hlook, hh, hfv]
        · left
          simp [readFile, hlook, hh, hfv, putVersion_session_reads]
      | some oldRow =>
        by_cases hchg : (computeDiff oldRow.content C p).hasChanges
        · constructor
          · simp [readFile, hlook, hh, hfv, hchg, addTokensSaved_file_versions]
          · left
            simp [readFile, hlook, hh, hfv, hchg, addTokensSaved_session_reads,
              putVersion_session_reads]
        · constructor
          · simp [readFile, hlook, hh, hfv, hchg]
          · left
            simp [readFile, hlook, hh, hfv, hchg, putVersion_session_reads]

/-! ## The claims -/

/-- C1: for every session, path, and content C, if a session reads a path and
then reads it again with the file unmodified, the second `readFile` returns
`cached = true` and `linesChanged = 0`, with content equal to the
unchanged-summary string, hash equal to the content hash, and the session's
and global savings counters increased by `estimateTokens C`
(`= ⌈0.75 · characterCount C⌉`). -/
theorem unchanged_second_read (ch : String → String) (st : Store) (sid p C : String)
    (n1 n2 : Nat) :
    (readFile ch ((readFile ch st sid p (some C) n1).2) sid p (some C) n2).1 =
      Except.ok
        { cached := true
          content := unchangedSummary (lineCount C) (estimateTokens C)
          diff := none
          linesChanged := some 0
          totalLines := some (lineCount C)
          hash := ch C }
    ∧ (readFile ch ((readFile ch st sid p (some C) n1).2) sid p (some C) n2).2.tokens_saved =
        ((readFile ch st sid p (some C) n1).2).tokens_saved + estimateTokens C
    ∧ sessionSaved (readFile ch ((readFile ch st sid p (some C) n1).2) sid p (some C) n2).2 sid =
        sessionSaved ((readFile ch st sid p (some C) n1).2) sid + estimateTokens C := by
  have hptr := readFile_pointer ch st sid p C n1
  have heval := readFile_unchanged_of_pointer ch ((readFile ch st sid p (some C) n1).2)
    sid p C n2 _ hptr rfl
  refine ⟨?_, ?_, ?_⟩
  · rw [heval]
  · rw [heval]
  · rw [heval]
    simp [sessionSaved, lookupSS_upsertAddSS_self]

/-- C4: the first-ever read of a path by a session returns `cached = false`
with the full file content — and indeed the entire response is pinned
independently of the rest of the store, so it cannot depend on any other
session's history on that path. -/
theorem first_read_cold (ch : String → String) (st : Store) (sid p C : String)
    (now : Nat) (h : lookupSR st.session_reads sid p = none) :
    (readFile ch st sid p (some C) now).1 =
      Except.ok
        { cached := false
          content := C
          diff := none
          linesChanged := none
          totalLines := some (lineCount C)
          hash := ch C } := by
  simp [readFile, h]

/-- Witness for C4: session s2 read the path; s1's first read is still a
cold-start full-content response. -/
theorem first_read_cold_witness :
    lookupSR ((readFile (fun s => s) Store.init "s2" "p" (some "x\ny") 0).2).session_reads
        "s1" "p" = none
    ∧ (readFile (fun s => s)
          ((readFile (fun s => s) Store.init "s2" "p" (some "x\ny") 0).2)
          "s1" "p" (some "x\ny") 1).1 =
        Except.ok
          { cached := false
            content := "x\ny"
            diff := none
            linesChanged := none
            totalLines := some 2
            hash := "x\ny" } :=
  ⟨by decide,
   first_read_cold (fun s => s) ((readFile (fun s => s) Store.init "s2" "p" (some "x\ny") 0).2)
     "s1" "p" "x\ny" 1 (by decide)⟩

/-- C5: a session's first read of a 3-line file returns `cached = false`, the
full content, and `totalLines = 3` (the line count of the content). -/
theorem first_read_three_lines (ch : String → String) (st : Store) (sid p C : String)
    (now : Nat) (h1 : lookupSR st.session_reads sid p = none) (h2 : lineCount C = 3) :
    (readFile ch st sid p (some C) now).1 =
      Except.ok
        { cached := false
          content := C
          diff := none
          linesChanged := none
          totalLines := some 3
          hash := ch C } := by
  simp [readFile, h1, h2]

/-- Witness for C5 on the 3-line content `"a\nb\nc"` and the empty store. -/
theorem first_read_three_lines_witness :
    lookupSR Store.init.session_reads "s1" "p" = none
    ∧ lineCount "a\nb\nc" = 3
    ∧ (readFile (fun s => s) Store.init "s1" "p" (some "a\nb\nc") 0).1 =
        Except.ok
          { cached := false
            content := "a\nb\nc"
            diff := none
            linesChanged := none
            totalLines := some 3
            hash := "a\nb\nc" } :=
  ⟨by decide, by decide,
   first_read_three_lines (fun s => s) Store.init "s1" "p" "a\nb\nc" 0 (by decide) (by decide)⟩

/-- C6: reading a path that does not exist propagates `notFound` and performs
no cache mutation — the whole store (all four tables) is returned unchanged,
and no `FileReadResult` is produced. -/
theorem missing_file_not_found (ch : String → String) (st : Store) (sid p : String)
    (now : Nat) :
    readFile ch st sid p none now = (Except.error CacheError.notFound, st) := rfl

/-- C2: when the session's last-seen hash differs from the current hash, the
old version is in the content store, and the diff engine reports changes,
`readFile` returns `cached = true` with content and diff both the diff text,
`linesChanged` from the diff result, `totalLines` of the current content, and
both savings counters grow by `estimate(current) - estimate(diffText)`
(`Nat` subtraction is the source's `max(0, ...)`). -/
theorem changed_read_returns_diff (ch : String → String) (st : Store) (sid p C : String)
    (now : Nat) (r0 : SRRow) (v : FVRow)
    (h1 : lookupSR st.session_reads sid p = some r0)
    (h2 : r0.hash ≠ ch C)
    (h3 : lookupFV st.file_versions p r0.hash = some v)
    (h4 : (computeDiff v.content C p).hasChanges = true) :
    (readFile ch st sid p (some C) now).1 =
      Except.ok
        { cached := true
          content := (computeDiff v.content C p).diff
          diff := some (computeDiff v.content C p).diff
          linesChanged := some (computeDiff v.content C p).linesChanged
          totalLines := some (lineCount C)
          hash := ch C }
    ∧ (readFile ch st sid p (some C) now).2.tokens_saved =
        st.tokens_saved + (estimateTokens C - estimateTokens (computeDiff v.content C p).diff)
    ∧ sessionSaved (readFile ch st sid p (some C) now).2 sid =
        sessionSaved st sid
          + (estimateTokens C - estimateTokens (computeDiff v.content C p).diff) := by
  refine ⟨?_, ?_, ?_⟩
  · simp [readFile, h1, h2, h3, h4]
  · simp [readFile, h1, h2, h3, h4, addTokensSaved, putVersion_tokens_saved]
  · simp [readFile, h1, h2, h3, h4, addTokensSaved, putVersion_session_stats,
      sessionSaved, lookupSS_upsertAddSS_self]

/-- Witness for C2: the session last saw hash `"h0"` (content `"old"`), the
file now holds `"new"`; the diff branch is taken. -/
theorem changed_read_returns_diff_witness :
    (readFile (fun s => s)
        { file_versions := [{ path := "p", hash := "h0", content := "old",
                              lines := 1, created_at := 0 }]
          session_reads := [{ session_id := "s", path := "p", hash := "h0", read_at := 0 }]
          tokens_saved := 0
          session_stats := [] }
        "s" "p" (some "new") 5).1 =
      Except.ok
        { cached := true
          content := (computeDiff "old" "new" "p").diff
          diff := some (computeDiff "old" "new" "p").diff
          linesChanged := some (computeDiff "old" "new" "p").linesChanged
          totalLines := some (lineCount "new")
          hash := "new" } :=
  (changed_read_returns_diff (fun s => s)
    { file_versions := [{ path := "p", hash := "h0", content := "old",
                          lines := 1, created_at := 0 }]
      session_reads := [{ session_id := "s", path := "p", hash := "h0", read_at := 0 }]
      tokens_saved := 0
      session_stats := [] }
    "s" "p" "new" 5
    { session_id := "s", path := "p", hash := "h0", read_at := 0 }
    { path := "p", hash := "h0", content := "old", lines := 1, created_at := 0 }
    (by decide) (by decide) (by decide) (by decide)).1

/-- C3: when the last-seen hash differs but the old version is missing from
the content store, or the diff engine reports no changes, `readFile` falls
back to the cold-start response shape (`cached = false`, full content,
current hash and line count) and records no savings: the global counter and
the whole `session_stats` table are unchanged. -/
theorem changed_read_fallback (ch : String → String) (st : Store) (sid p C : String)
    (now : Nat) (r0 : SRRow)
    (h1 : lookupSR st.session_reads sid p = some r0)
    (h2 : r0.hash ≠ ch C)
    (h3 : lookupFV st.file_versions p r0.hash = none ∨
          ∃ v, lookupFV st.file_versions p r0.hash = some v ∧
            (computeDiff v.content C p).hasChanges = false) :
    (readFile ch st sid p (some C) now).1 =
      Except.ok
        { cached := false
          content := C
          diff := none
          linesChanged := none
          totalLines := some (lineCount C)
          hash := ch C }
    ∧ (readFile ch st sid p (some C) now).2.tokens_saved = st.tokens_saved
    ∧ (readFile ch st sid p (some C) now).2.session_stats = st.session_stats := by
  rcases h3 with h3 | ⟨v, h3, h4⟩
  · refine ⟨?_, ?_, ?_⟩
    · simp [readFile, h1, h2, h3]
    · simp [readFile, h1, h2, h3, putVersion_tokens_saved]
    · simp [readFile, h1, h2, h3, putVersion_session_stats]
  · refine ⟨?_, ?_, ?_⟩
    · simp [readFile, h1, h2, h3, h4]
    · simp [readFile, h1, h2, h3, h4, putVersion_tokens_saved]
    · simp [readFile, h1, h2, h3, h4, putVersion_session_stats]

/-- Witness for C3: the session's pointer holds hash `"h0"` but no version
row `("p", "h0")` exists; the read falls back to full content, no savings. -/
theorem changed_read_fallback_witness :
    (readFile (fun s => s)
        { file_versions := []
          session_reads := [{ session_id := "s", path := "p", hash := "h0", read_at := 0 }]
          tokens_saved := 7
          session_stats := [("s", 7)] }
        "s" "p" (some "b") 5).1 =
      Except.ok
        { cached := false
          content := "b"
          diff := none
          linesChanged := none
          totalLines := some 1
          hash := "b" } :=
  (changed_read_fallback (fun s => s)
    { file_versions := []
      session_reads := [{ session_id := "s", path := "p", hash := "h0", read_at := 0 }]
      tokens_saved := 7
      session_stats := [("s", 7)] }
    "s" "p" "b" 5
    { session_id := "s", path := "p", hash := "h0", read_at := 0 }
    (by decide) (by decide) (Or.inl (by decide))).1

/-- C10: when the changed branch falls back because the old version is
missing (returning `cached = false` with full content), the session pointer
was still moved to the current hash, so an immediately following read of the
same unmodified path by the same session is an unchanged cache hit
(`cached = true`, `linesChanged = 0`), not a second cold start. -/
theorem fallback_updates_pointer (ch : String → String) (st : Store) (sid p C : String)
    (n1 n2 : Nat) (r0 : SRRow)
    (h1 : lookupSR st.session_reads sid p = some r0)
    (h2 : r0.hash ≠ ch C)
    (h3 : lookupFV st.file_versions p r0.hash = none) :
    (readFile ch st sid p (some C) n1).1 =
      Except.ok
        { cached := false
          content := C
          diff := none
          linesChanged := none
          totalLines := some (lineCount C)
          hash := ch C }
    ∧ (readFile ch ((readFile ch st sid p (some C) n1).2) sid p (some C) n2).1 =
        Except.ok
          { cached := true
            content := unchangedSummary (lineCount C) (estimateTokens C)
            diff := none
            linesChanged := some 0
            totalLines := some (lineCount C)
            hash := ch C } := by
  constructor
  · simp [readFile, h1, h2, h3]
  · have hptr := readFile_pointer ch st sid p C n1
    rw [readFile_unchanged_of_pointer ch ((readFile ch st sid p (some C) n1).2)
      sid p C n2 _ hptr rfl]

/-- Witness for C10: pointer to a purged version, then two reads of `"b"`. -/
theorem fallback_updates_pointer_witness :
    (readFile (fun s => s)
        { file_versions := []
          session_reads := [{ session_id := "s", path := "p", hash := "h0", read_at := 0 }]
          tokens_saved := 0
          session_stats := [] }
        "s" "p" (some "b") 1).1 =
      Except.ok
        { cached := false
          content := "b"
          diff := none
          linesChanged := none
          totalLines := some 1
          hash := "b" }
    ∧ (readFile (fun s => s)
        ((readFile (fun s => s)
            { file_versions := []
              session_reads := [{ session_id := "s", path := "p", hash := "h0", read_at := 0 }]
              tokens_saved := 0
              session_stats := [] }
            "s" "p" (some "b") 1).2)
        "s" "p" (some "b") 2).1 =
      Except.ok
        { cached := true
          content := unchangedSummary 1 1
          diff := none
          linesChanged := some 0
          totalLines := some 1
          hash := "b" } :=
  fallback_updates_pointer (fun s => s)
    { file_versions := []
      session_reads := [{ session_id := "s", path := "p", hash := "h0", read_at := 0 }]
      tokens_saved := 0
      session_stats := [] }
    "s" "p" "b" 1 2
    { session_id := "s", path := "p", hash := "h0", read_at := 0 }
    (by decide) (by decide) (by decide)

/-- C9: `putVersion` is idempotent.  Inserting under a `(path, hash)` key that
already exists is a no-op on the whole store; and starting from an absent
key, inserting twice — the second time with different content — leaves
exactly one row for the key, holding the originally stored content. -/
theorem putVersion_idempotent (st : Store) (p h c₁ c₂ : String) (l₁ l₂ t₁ t₂ : Nat) :
    (∀ v, lookupFV st.file_versions p h = some v → putVersion st p h c₂ l₂ t₂ = st)
    ∧ (lookupFV st.file_versions p h = none →
        putVersion (putVersion st p h c₁ l₁ t₁) p h c₂ l₂ t₂ = putVersion st p h c₁ l₁ t₁
        ∧ countFV (putVersion (putVersion st p h c₁ l₁ t₁) p h c₂ l₂ t₂).file_versions p h = 1
        ∧ (lookupFV (putVersion (putVersion st p h c₁ l₁ t₁) p h c₂ l₂ t₂).file_versions
            p h).map (fun r => r.content) = some c₁) := by
  constructor
  · intro v hv
    exact putVersion_noop hv c₂ l₂ t₂
  · intro hnone
    have hrow : lookupFV (putVersion st p h c₁ l₁ t₁).file_versions p h =
        some { path := p, hash := h, content := c₁, lines := l₁, created_at := t₁ } := by
      simp [putVersion, hnone, lookupFV_append, lookupFV]
    have hput2 : putVersion (putVersion st p h c₁ l₁ t₁) p h c₂ l₂ t₂ =
        putVersion st p h c₁ l₁ t₁ :=
      putVersion_noop hrow c₂ l₂ t₂
    refine ⟨hput2, ?_, ?_⟩
    · rw [hput2]
      have hfv : (putVersion st p h c₁ l₁ t₁).file_versions =
          st.file_versions ++
            [{ path := p, hash := h, content := c₁, lines := l₁, created_at := t₁ }] := by
        simp [putVersion, hnone]
      rw [hfv, countFV_append, countFV_zero_of_lookup_none hnone]
      simp [countFV]
    · rw [hput2, hrow]
      rfl

/-- Witness for C9: double insert of key `("p","h")` with different contents
on the empty store, then a no-op third insert. -/
theorem putVersion_idempotent_witness :
    putVersion (putVersion Store.init "p" "h" "c1" 1 0) "p" "h" "c2" 1 5 =
      putVersion Store.init "p" "h" "c1" 1 0
    ∧ countFV (putVersion (putVersion Store.init "p" "h" "c1" 1 0) "p" "h" "c2" 1 5
        ).file_versions "p" "h" = 1
    ∧ (lookupFV (putVersion (putVersion Store.init "p" "h" "c1" 1 0) "p" "h" "c2" 1 5
        ).file_versions "p" "h").map (fun r => r.content) = some "c1" :=
  (putVersion_idempotent Store.init "p" "h" "c1" "c2" 1 1 0 5).2 (by decide)

/-- C7: both savings counters start at zero in the fresh store, never decrease
under any `readFile` / `onFileDeleted` / `getStats` operation (every increment
is a non-negative amount), and `clear` — the only lowering operation — resets
them to zero. -/
theorem savings_monotone (ch : String → String) :
    Store.init.tokens_saved = 0
    ∧ (∀ sid, sessionSaved Store.init sid = 0)
    ∧ (∀ st op, op ≠ Op.clearAll →
        st.tokens_saved ≤ (applyOp ch st op).tokens_saved
        ∧ ∀ sid, sessionSaved st sid ≤ sessionSaved (applyOp ch st op) sid)
    ∧ (∀ st, (clear st).tokens_saved = 0 ∧ ∀ sid, sessionSaved (clear st) sid = 0) := by
  refine ⟨rfl, fun sid => rfl, ?_, fun st => ⟨rfl, fun sid => rfl⟩⟩
  intro st op hop
  cases op with
  | clearAll => exact absurd rfl hop
  | fileDeleted p =>
    exact ⟨le_refl _, fun sid => le_refl _⟩
  | statsQuery sid' =>
    exact ⟨le_refl _, fun sid => le_refl _⟩
  | read sid' p fc now =>
    show st.tokens_saved ≤ ((readFile ch st sid' p fc now).2).tokens_saved
      ∧ ∀ sid, sessionSaved st sid ≤ sessionSaved ((readFile ch st sid' p fc now).2) sid
    cases fc with
    | none => exact ⟨le_refl _, fun sid => le_refl _⟩
    | some C =>
      cases hlook : lookupSR st.session_reads sid' p with
      | none =>
        constructor
        · simp [readFile, hlook, putVersion_tokens_saved]
        · intro sid
          simp [readFile, hlook, sessionSaved, putVersion_session_stats]
      | some lastRead =>
        by_cases hh : lastRead.hash = ch C
        · constructor
          · simp [readFile, hlook, hh, addTokensSaved]
          · intro sid
            have := sessionSaved_addTokensSaved_mono st sid' sid (estimateTokens C)
            simp only [readFile, hlook, hh, if_true]
            simpa [sessionSaved, addTokensSaved] using this
        · cases hfv : lookupFV st.file_versions p lastRead.hash with
          | none =>
            constructor
            · simp [readFile, hlook, hh, hfv, putVersion_tokens_saved]
            · intro sid
              simp [readFile, hlook, hh, hfv, sessionSaved, putVersion_session_stats]
          | some oldRow =>
            by_cases hchg : (computeDiff oldRow.content C p).hasChanges
            · constructor
              · simp [readFile, hlook, hh, hfv, hchg, addTokensSaved,
                  putVersion_tokens_saved]
              · intro sid
                have hmono := sessionSaved_upsert_mono st.session_stats sid' sid
                  (estimateTokens C - estimateTokens (computeDiff oldRow.content C p).diff)
                simp only [readFile, hlook, hh, hfv, hchg, sessionSaved, addTokensSaved,
                  putVersion_session_stats] at hmono ⊢
                simpa using hmono
            · constructor
              · simp [readFile, hlook, hh, hfv, hchg, putVersion_tokens_saved]
              · intro sid
                simp [readFile, hlook, hh, hfv, hchg, sessionSaved,
                  putVersion_session_stats]

/-- Witness for C7: the non-`clear` monotonicity applied at a concrete
operation, discharging the `op ≠ clearAll` hypothesis. -/
theorem savings_monotone_witness :
    Store.init.tokens_saved ≤
      (applyOp (fun s => s) Store.init (Op.fileDeleted "p")).tokens_saved :=
  (((savings_monotone (fun s => s)).2.2.1 Store.init (Op.fileDeleted "p") (by decide))).1

theorem pointersValid_readFile (ch : String → String) (st : Store) (sid p : String)
    (fc : Option String) (now : Nat) (hinv : pointersValid st) :
    pointersValid (readFile ch st sid p fc now).2 := by
  cases fc with
  | none => exact hinv
  | some C =>
    rcases readFile_state_fields ch st sid p C now with ⟨hfv, hsr⟩ | ⟨hfv, hsr | hsr⟩
    · -- unchanged branch: only the timestamp moved
      intro r' hr'
      rw [hsr] at hr'
      obtain ⟨r, hrmem, hpath, hhash⟩ := mem_updateSRReadAt hr'
      obtain ⟨v, hv⟩ := hinv r hrmem
      rw [hfv, hpath, hhash]
      exact ⟨v, hv⟩
    · -- changed branch: pointer moved to the freshly inserted version
      intro r' hr'
      rw [hsr] at hr'
      rw [hfv]
      rcases mem_updateSRHash hr' with ⟨hpath, hhash⟩ | hrmem
      · obtain ⟨v, hv, _⟩ := lookupFV_putVersion_self st p (ch C) C (lineCount C) now
        rw [hpath, hhash]
        exact ⟨v, hv⟩
      · obtain ⟨v, hv⟩ := hinv r' hrmem
        exact ⟨v, lookupFV_putVersion_preserve p (ch C) C (lineCount C) now hv⟩
    · -- first read in this session
      intro r' hr'
      rw [hsr] at hr'
      rw [hfv]
      rcases mem_insertOrReplaceSR hr' with heq | hrmem
      · obtain ⟨v, hv, _⟩ := lookupFV_putVersion_self st p (ch C) C (lineCount C) now
        rw [heq]
        exact ⟨v, hv⟩
      · obtain ⟨v, hv⟩ := hinv r' hrmem
        exact ⟨v, lookupFV_putVersion_preserve p (ch C) C (lineCount C) now hv⟩

theorem pointersValid_applyOp (ch : String → String) (st : Store) (op : Op)
    (hinv : pointersValid st) : pointersValid (applyOp ch st op) := by
  cases op with
  | read sid p fc now => exact pointersValid_readFile ch st sid p fc now hinv
  | fileDeleted p =>
    intro r' hr'
    obtain ⟨hrmem, hne⟩ := mem_deleteSRPath hr'
    obtain ⟨v, hv⟩ := hinv r' hrmem
    exact ⟨v, (lookupFV_deleteFVPath hne).trans hv⟩
  | statsQuery sid => exact hinv
  | clearAll => intro r' hr'; simp [applyOp, clear] at hr'

/-- C8: in every state reachable from the fresh store by any sequence of
`readFile`, `onFileDeleted`, `getStats` and `clear` operations, every
session-pointer row `(sessionId, path, hash)` refers to an existing
`file_versions` row with key `(path, hash)`: versions are inserted before
pointers are created or moved, and purges delete pointers together with
versions. -/
theorem session_pointers_reference_versions (ch : String → String) (ops : List Op) :
    pointersValid (applyOps ch Store.init ops) := by
  have general : ∀ (ops : List Op) (st : Store), pointersValid st →
      pointersValid (applyOps ch st ops) := by
    intro ops
    induction ops with
    | nil => intro st h; exact h
    | cons op rest ih =>
      intro st h
      exact ih (applyOp ch st op) (pointersValid_applyOp ch st op h)
  exact general ops Store.init (by intro r hr; simp [Store.init] at hr)

end Cachebro
